import Mathlib

/-!
Shallow embedding of the two source files of the repository
(`seller.py`, the Ozon standalone script, and `market.py`, the Yandex
Market orchestrator), together with theorems settling the frozen claims.

Modelling conventions:
* Spreadsheet rows are records of string fields ("Код" → `code`,
  "Количество" → `quantity`, "Цена" → `price`); Python's `str()` of a
  field is the field itself under this convention.
* Python `int(s)` applied to a string is modelled by `pyInt`, which
  returns `none` exactly when CPython would raise `ValueError`.
* A Python function that may raise is modelled with `Option`/`Except`;
  `none` / `.error` means an exception propagates out of the call.
* Python strings are modelled as `String`, with character-level
  operations (`str.split`, regexp filtering) performed on `toList`.
* In-place mutation of the caller's `offer_ids` list by
  `create_stocks` (`offer_ids.remove(...)`) is made explicit: the
  embedded function also returns the final state of that list.
-/

namespace Seller

/-- Supplier feed row: the fields of one record of `ostatki.xls` that the
code reads ("Код", "Количество", "Цена"), each modelled as a string. -/
structure SupplierRow where
  code : String
  quantity : String
  price : String
deriving DecidableEq, Repr

/-- Seller stock-update record, `\x7b"offer_id": ..., "stock": ...\x7d`
built in `seller.create_stocks`. -/
structure StockRecord where
  offer_id : String
  stock : Int
deriving DecidableEq, Repr

/-- Seller price-update record built in `seller.create_prices`. -/
structure PriceRecord where
  auto_action_enabled : String
  currency_code : String
  offer_id : String
  old_price : String
  price : String
deriving DecidableEq, Repr

/-- Value of the decimal digits of `cs` read left to right (helper for
`pyInt`). -/
def digitsVal (cs : List Char) : Nat :=
  cs.foldl (fun a c => a * 10 + (c.toNat - ('0').toNat)) 0

/-- Model of CPython `int(s)` on a string `s`: surrounding whitespace is
ignored, an optional single sign is allowed, and the remainder must be a
nonempty run of ASCII decimal digits; every other string raises
`ValueError`, modelled as `none`.  (Underscore digit grouping and
non-ASCII digits, which CPython also accepts, do not occur in this
code base and are not modelled.) -/
def pyInt (s : String) : Option Int :=
  let t := (((s.toList.dropWhile (· = ' ')).reverse.dropWhile (· = ' ')).reverse)
  match t with
  | '-' :: ds =>
      if ds ≠ [] ∧ ds.all Char.isDigit then some (-(digitsVal ds : Int)) else none
  | '+' :: ds =>
      if ds ≠ [] ∧ ds.all Char.isDigit then some ((digitsVal ds : Int)) else none
  | ds =>
      if ds ≠ [] ∧ ds.all Char.isDigit then some ((digitsVal ds : Int)) else none

/-- First matching loop of `seller.create_stocks` (lines 149-159): for
each row whose code is in `offer_ids`, classify the quantity string
(">10" → 100, "1" → 0, otherwise `int(...)`, which may raise), emit a
stock record and remove the code from `offer_ids`.  Returns the emitted
records together with the final state of the mutated `offer_ids` list;
`none` models a `ValueError` escaping from `int(...)`. -/
def create_stocks_loop :
    List SupplierRow → List String → Option (List StockRecord × List String)
  | [], offer_ids => some ([], offer_ids)
  | w :: rest, offer_ids =>
      if w.code ∈ offer_ids then
        match (if w.quantity = ">10" then some (100 : Int)
               else if w.quantity = "1" then some (0 : Int)
               else pyInt w.quantity) with
        | none => none
        | some stock =>
            match create_stocks_loop rest (offer_ids.erase w.code) with
            | none => none
            | some (stocks, ids) =>
                some (⟨w.code, stock⟩ :: stocks, ids)
      else create_stocks_loop rest offer_ids

/-- Model of `seller.create_stocks(watch_remnants, offer_ids)` (lines
137-163).  The first component is the returned `stocks` list (matched
rows in feed order, then a zero-stock record for every leftover
identifier in list order); the second component is the final state of
the caller's `offer_ids` list after the in-place `remove` calls. -/
def create_stocks (watch_remnants : List SupplierRow) (offer_ids : List String) :
    Option (List StockRecord × List String) :=
  match create_stocks_loop watch_remnants offer_ids with
  | none => none
  | some (stocks, ids) =>
      some (stocks ++ ids.map (fun offer_id => ⟨offer_id, 0⟩), ids)

/-- Model of Python `s.split(sep)` for a single-character separator,
over the character list of the string: splits at every occurrence of
`sep`, keeping empty segments (so the result is always nonempty). -/
def py_split (sep : Char) : List Char → List (List Char)
  | [] => [[]]
  | c :: rest =>
      if c = sep then [] :: py_split sep rest
      else
        match py_split sep rest with
        | [] => [[c]]
        | p :: ps => (c :: p) :: ps

/-- Model of `seller.price_conversion` (lines 190-197):
`re.sub("[^0-9]", "", price.split(".")[0])` — take the part of the
string before the first "." and delete every non-digit character. -/
def price_conversion (price : String) : String :=
  ⟨((py_split ('.') price.toList).headD []).filter Char.isDigit⟩

/-- Model of `seller.create_prices(watch_remnants, offer_ids)` (lines
166-187): one price record per row whose code is in `offer_ids`, in feed
order; `offer_ids` is only read, never mutated. -/
def create_prices (watch_remnants : List SupplierRow) (offer_ids : List String) :
    List PriceRecord :=
  watch_remnants.filterMap fun w =>
    if w.code ∈ offer_ids then
      some ⟨"UNKNOWN", "RUB", w.code, "0", price_conversion w.price⟩
    else none

/-- Slicing loop of `seller.divide` for a positive chunk size: the
Python generator body `for i in range(0, len(lst), n): yield lst[i:i+n]`,
phrased as "yield the first `n` elements, continue on the rest".  The
`fuel` argument only bounds the recursion depth so the definition is
structural (and hence kernel-reducible); `dividePos` passes
`lst.length`, which is enough fuel because every iteration with a
positive `n` consumes at least one element. -/
def dividePosAux : Nat → List α → Nat → List (List α)
  | 0, _, _ => []
  | _ + 1, [], _ => []
  | fuel + 1, x :: xs, n =>
      (x :: xs).take n :: dividePosAux fuel ((x :: xs).drop n) n

/-- Slices of size `n` yielded by `seller.divide(lst, n)` when `n` is
positive. -/
def dividePos (lst : List α) (n : Nat) : List (List α) :=
  dividePosAux lst.length lst n

/-- Model of `seller.divide(lst, n)` (lines 200-206) as consumed by
`list(...)` at every call site.  `range(0, len(lst), 0)` raises
`ValueError` (`none`); a positive step yields the slices of size `n`;
a negative step makes `range(0, len(lst), n)` empty, so nothing is
yielded. -/
def divide (lst : List α) (n : Int) : Option (List (List α)) :=
  if n = 0 then none
  else if 0 < n then some (dividePos lst n.toNat)
  else some []

/-- Ozon product item as used by `seller.get_offer_ids`: only the
`offer_id` field is read. -/
structure OzonProduct where
  offer_id : String
deriving DecidableEq, Repr

/-- One response of the Ozon `product/list` endpoint as used by
`seller.get_offer_ids`: the `items` list, the reported `total`, and the
`last_id` cursor (carried for fidelity; the model consumes responses in
sequence). -/
structure OzonPage where
  items : List OzonProduct
  total : Nat
  last_id : String
deriving DecidableEq, Repr

/-- Accumulation loop of `seller.get_offer_ids` (lines 53-61): extend
`product_list` with the next page's items and stop as soon as the
reported total equals the accumulated count.  The remaining pages model
the unbounded stream of endpoint responses; running out of pages means
the Python loop would keep calling the endpoint (no result), modelled
as `none`. -/
def get_offer_ids_loop :
    List OzonPage → List OzonProduct → Option (List OzonProduct)
  | [], _ => none
  | p :: rest, acc =>
      let acc2 := acc ++ p.items
      if p.total = acc2.length then some acc2
      else get_offer_ids_loop rest acc2

/-- Model of `seller.get_offer_ids` (lines 43-65): accumulate items page
by page, then return the `offer_id` of every accumulated item, in order,
with no de-duplication. -/
def get_offer_ids (pages : List OzonPage) : Option (List String) :=
  (get_offer_ids_loop pages []).map (List.map OzonProduct.offer_id)

/-- Pure record-building core of `seller.main` (lines 256-266),
parameterised by the offer identifiers fetched from the API and the
downloaded feed rows: build the stock records (mutating `offer_ids` in
place), split them into batches of 100, then build the price records
from the *mutated* `offer_ids` list and split them into batches of 900.
Returns the stock batches and price batches that `main` submits. -/
def main_records (offer_ids : List String) (watch_remnants : List SupplierRow) :
    Option (List (List StockRecord) × List (List PriceRecord)) :=
  match create_stocks watch_remnants offer_ids with
  | none => none
  | some (stocks, ids) =>
      some (dividePos stocks 100,
            dividePos (create_prices watch_remnants ids) 900)

/-- Batches submitted by `seller.upload_prices` (lines 209-224),
parameterised by the freshly fetched offer identifiers: price records
are built from the fresh list and divided into batches of 1000. -/
def upload_prices_batches (offer_ids : List String)
    (watch_remnants : List SupplierRow) : List (List PriceRecord) :=
  dividePos (create_prices watch_remnants offer_ids) 1000

/-- Batches submitted by `seller.upload_stocks` (lines 227-243),
parameterised by the freshly fetched offer identifiers: stock records
divided into batches of 100 (`none` models a `ValueError` from
`create_stocks`). -/
def upload_stocks_batches (offer_ids : List String)
    (watch_remnants : List SupplierRow) : Option (List (List StockRecord)) :=
  match create_stocks watch_remnants offer_ids with
  | none => none
  | some (stocks, _) => some (dividePos stocks 100)

end Seller

namespace Market

/-- One stock item of a Yandex Market stock record:
`\x7b"count": ..., "type": "FIT", "updatedAt": ...\x7d`. -/
structure StockItem where
  count : Int
  type : String
  updatedAt : String
deriving DecidableEq, Repr

/-- Yandex Market stock-update record built in `market.create_stocks`:
`\x7b"sku": ..., "warehouseId": ..., "items": [...]\x7d`. -/
structure StockRecord where
  sku : String
  warehouseId : String
  items : List StockItem
deriving DecidableEq, Repr

/-- Price value of a Yandex Market price record:
`\x7b"value": ..., "currencyId": "RUR"\x7d`. -/
structure PriceValue where
  value : Int
  currencyId : String
deriving DecidableEq, Repr

/-- Yandex Market price-update record built in `market.create_prices`. -/
structure PriceRecord where
  id : String
  price : PriceValue
deriving DecidableEq, Repr

/-- First matching loop of `market.create_stocks` (lines 132-154): the
same quantity classification as in `seller.create_stocks`, emitting
Yandex-shaped records and removing each matched code from `offer_ids`.
`date` models the `datetime.datetime.utcnow()...` timestamp computed at
entry.  Returns the emitted records and the final state of the mutated
`offer_ids` list; `none` models a `ValueError` from `int(...)`. -/
def create_stocks_loop (warehouse_id date : String) :
    List Seller.SupplierRow → List String → Option (List StockRecord × List String)
  | [], offer_ids => some ([], offer_ids)
  | w :: rest, offer_ids =>
      if w.code ∈ offer_ids then
        match (if w.quantity = ">10" then some (100 : Int)
               else if w.quantity = "1" then some (0 : Int)
               else Seller.pyInt w.quantity) with
        | none => none
        | some stock =>
            match create_stocks_loop warehouse_id date rest (offer_ids.erase w.code) with
            | none => none
            | some (stocks, ids) =>
                some (⟨w.code, warehouse_id, [⟨stock, "FIT", date⟩]⟩ :: stocks, ids)
      else create_stocks_loop warehouse_id date rest offer_ids

/-- Model of `market.create_stocks(watch_remnants, offer_ids,
warehouse_id)` (lines 118-170): matched rows in feed order, then a
zero-count record for every leftover identifier.  As in the seller
variant, the second component is the post-mutation `offer_ids` list. -/
def create_stocks (watch_remnants : List Seller.SupplierRow)
    (offer_ids : List String) (warehouse_id date : String) :
    Option (List StockRecord × List String) :=
  match create_stocks_loop warehouse_id date watch_remnants offer_ids with
  | none => none
  | some (stocks, ids) =>
      some (stocks ++ ids.map (fun offer_id => ⟨offer_id, warehouse_id, [⟨0, "FIT", date⟩]⟩),
            ids)

/-- Model of `market.create_prices` (lines 173-200): one price record
per row whose code is in `offer_ids`; the price is
`int(price_conversion(...))`, which raises (`none`) when the converted
string holds no digits. -/
def create_prices (watch_remnants : List Seller.SupplierRow)
    (offer_ids : List String) : Option (List PriceRecord) :=
  match watch_remnants with
  | [] => some []
  | w :: rest =>
      if w.code ∈ offer_ids then
        match Seller.pyInt (Seller.price_conversion w.price) with
        | none => none
        | some v =>
            match create_prices rest offer_ids with
            | none => none
            | some ps => some (⟨w.code, ⟨v, "RUR"⟩⟩ :: ps)
      else create_prices rest offer_ids

/-- Offer-mapping entry of the Yandex Market listing response: only
`offer.shopSku` is read by `market.get_offer_ids`. -/
structure MarketEntry where
  shopSku : String
deriving DecidableEq, Repr

/-- One response of the Yandex Market `offer-mapping-entries` endpoint:
the entries and the `paging.nextPageToken` cursor (a missing token is
modelled as the falsy `""`). -/
structure MarketPage where
  offerMappingEntries : List MarketEntry
  nextPageToken : String
deriving DecidableEq, Repr

/-- Accumulation loop of `market.get_offer_ids` (lines 104-111): extend
`product_list` with the next page's entries and stop as soon as the
next-page token is falsy.  Running out of modelled responses means the
Python loop would keep calling the endpoint: `none`. -/
def get_offer_ids_loop :
    List MarketPage → List MarketEntry → Option (List MarketEntry)
  | [], _ => none
  | p :: rest, acc =>
      let acc2 := acc ++ p.offerMappingEntries
      if p.nextPageToken = "" then some acc2
      else get_offer_ids_loop rest acc2

/-- Model of `market.get_offer_ids` (lines 94-115): accumulate entries
page by page, then return every accumulated entry's `shopSku`, in
order, with no de-duplication. -/
def get_offer_ids (pages : List MarketPage) : Option (List String) :=
  (get_offer_ids_loop pages []).map (List.map MarketEntry.shopSku)

/-- Effect visible at the marketplace API during a `market.main` run:
one submitted stock-update batch or one submitted price-update batch
(with the campaign it was sent for). -/
inductive Event
  | stockBatch (campaign : String) (batch : List StockRecord)
  | priceBatch (campaign : String) (batch : List PriceRecord)
deriving DecidableEq, Repr

/-- True iff the event is a stock-update submission. -/
def Event.isStockBatch : Event → Bool
  | .stockBatch _ _ => true
  | .priceBatch _ _ => false

/-- Trace of API submissions performed by `market.main` (lines 260-277),
parameterised by the resolved offer identifiers of each campaign, the
feed rows and the ambient timestamp.  For each fulfillment program (FBS
then DBS) the run builds stock records and submits them in batches of
2000; the subsequent `upload_prices(...)` call is an `async` function
invoked *without* `await`, so CPython only creates a coroutine object
and discards it — its body never executes and no price-update request
is sent.  The boolean is `true` when the try-body ran to completion
(`false` models a `ValueError` escaping from `create_stocks`, cutting
the run short after the events already emitted). -/
def main_events (campaign_fbs campaign_dbs : String)
    (fbs_ids dbs_ids : List String) (watch_remnants : List Seller.SupplierRow)
    (warehouse_fbs warehouse_dbs date : String) : List Event × Bool :=
  match create_stocks watch_remnants fbs_ids warehouse_fbs date with
  | none => ([], false)
  | some (stocksF, _) =>
      let evF := (Seller.dividePos stocksF 2000).map (Event.stockBatch campaign_fbs)
      match create_stocks watch_remnants dbs_ids warehouse_dbs date with
      | none => (evF, false)
      | some (stocksD, _) =>
          (evF ++ (Seller.dividePos stocksD 2000).map (Event.stockBatch campaign_dbs),
           true)

end Market

/-- Spec-side restatement of the Price Parser contract (§4.1/§8 of the
specification), for the refinement claim C7: take the characters of the
input strictly before the first "." (the whole input when none occurs)
and keep only the ASCII digits. -/
def price_conversion_spec (price : String) : String :=
  ⟨(price.toList.takeWhile (fun c => !(c == '.'))).filter Char.isDigit⟩

/-- Kinds of exception that can reach the top-level handlers of the two
entry points: `requests.exceptions.ReadTimeout`,
`requests.exceptions.ConnectionError`, and every other `Exception`
(HTTP errors, `ValueError` from `int(...)`, missing fields, ...). -/
inductive PyExc
  | readTimeout
  | connectionError
  | other
deriving DecidableEq, Repr

/-- Result of one entry-point run: normal completion, an exception
caught by one of the three `except` clauses (`ReadTimeout`,
`ConnectionError`, generic `Exception`), or an exception that escapes
the handlers entirely. -/
inductive RunOutcome
  | ok
  | caughtTimeout
  | caughtConn
  | caughtOther
  | uncaught (e : PyExc)
deriving DecidableEq, Repr

/-- True iff the run ended with an exception no handler caught. -/
def RunOutcome.isUncaught : RunOutcome → Bool
  | .uncaught _ => true
  | _ => false

/-- Dispatch of the three `except` clauses shared by `seller.main`
(lines 267-272) and `market.main` (lines 278-283): `ReadTimeout` first,
then `ConnectionError`, then the catch-all `Exception`. -/
def handleTop : PyExc → RunOutcome
  | .readTimeout => .caughtTimeout
  | .connectionError => .caughtConn
  | .other => .caughtOther

/-- Wrap a try-body result with the three handlers. -/
def outcomeOf : Except PyExc Unit → RunOutcome
  | .ok _ => .ok
  | .error e => handleTop e

/-- Lift an `Option` result (where `none` models a raised `ValueError`)
into the exception monad. -/
def raiseOnNone : Option α → Except PyExc α
  | none => Except.error PyExc.other
  | some a => Except.ok a

namespace Seller

/-- Try-body of `seller.main` (lines 257-266) in the exception monad,
parameterised by the outcome of each external interaction: resolving
offer identifiers, downloading the feed, and submitting each stock and
price batch (`submitStock`/`submitPrice` model `update_stocks` /
`update_price`, which raise on non-2xx responses). -/
def main_try_body (offers : Except PyExc (List String))
    (feed : Except PyExc (List SupplierRow))
    (submitStock : List StockRecord → Except PyExc Unit)
    (submitPrice : List PriceRecord → Except PyExc Unit) :
    Except PyExc Unit := do
  let offer_ids ← offers
  let watch_remnants ← feed
  let (stocks, ids) ← raiseOnNone (create_stocks watch_remnants offer_ids)
  (dividePos stocks 100).forM submitStock
  let prices := create_prices watch_remnants ids
  (dividePos prices 900).forM submitPrice

/-- Exception-flow model of `seller.main` (lines 246-272): the whole
synchronization sequence sits inside the `try`, so any exception is
routed through the three handlers. -/
def main_outcome (offers : Except PyExc (List String))
    (feed : Except PyExc (List SupplierRow))
    (submitStock : List StockRecord → Except PyExc Unit)
    (submitPrice : List PriceRecord → Except PyExc Unit) : RunOutcome :=
  outcomeOf (main_try_body offers feed submitStock submitPrice)

end Seller

namespace Market

/-- Try-body of `market.main` (lines 261-277) in the exception monad:
for each campaign (FBS then DBS) resolve offer identifiers, build stock
records (a `ValueError` from `int(...)` raises) and submit each batch
of 2000.  The un-awaited `upload_prices(...)` call only constructs a
coroutine object, which cannot raise and performs no request, so it
contributes nothing. -/
def main_try_body (offersFbs offersDbs : Except PyExc (List String))
    (watch_remnants : List Seller.SupplierRow)
    (submitStock : List StockRecord → Except PyExc Unit)
    (warehouse_fbs warehouse_dbs date : String) : Except PyExc Unit := do
  let ids_fbs ← offersFbs
  let (stocksF, _) ← raiseOnNone (create_stocks watch_remnants ids_fbs warehouse_fbs date)
  (Seller.dividePos stocksF 2000).forM submitStock
  let ids_dbs ← offersDbs
  let (stocksD, _) ← raiseOnNone (create_stocks watch_remnants ids_dbs warehouse_dbs date)
  (Seller.dividePos stocksD 2000).forM submitStock

/-- Exception-flow model of `market.main` (lines 242-283): the feed
download `watch_remnants = download_stock()` (line 259) happens
*before* the `try` block, so a failure there bypasses the handlers and
escapes as an uncaught exception; everything after it sits inside the
`try`. -/
def main_outcome (feed : Except PyExc (List Seller.SupplierRow))
    (offersFbs offersDbs : Except PyExc (List String))
    (submitStock : List StockRecord → Except PyExc Unit)
    (warehouse_fbs warehouse_dbs date : String) : RunOutcome :=
  match feed with
  | .error e => .uncaught e
  | .ok watch_remnants =>
      outcomeOf (main_try_body offersFbs offersDbs watch_remnants submitStock
        warehouse_fbs warehouse_dbs date)

end Market

/-! Section: Properties of the batch partitioner (`seller.divide`) -/

lemma dividePosAux_flatten {α : Type} :
    ∀ (fuel : Nat) (lst : List α) (n : Nat), lst.length ≤ fuel → 0 < n →
      (Seller.dividePosAux fuel lst n).flatten = lst := by
  intro fuel
  induction fuel with
  | zero =>
      intro lst n hle _
      have : lst = [] := List.eq_nil_of_length_eq_zero (Nat.le_zero.mp hle)
      subst this
      simp [Seller.dividePosAux]
  | succ fuel ih =>
      intro lst n hle hn
      cases lst with
      | nil => simp [Seller.dividePosAux]
      | cons x xs =>
          simp only [List.length_cons] at hle
          have hlen : ((x :: xs).drop n).length ≤ fuel := by
            rw [List.length_drop, List.length_cons]
            omega
          simp only [Seller.dividePosAux, List.flatten_cons, ih _ n hlen hn]
          exact List.take_append_drop n (x :: xs)

lemma dividePos_flatten {α : Type} (lst : List α) (n : Nat) (hn : 0 < n) :
    (Seller.dividePos lst n).flatten = lst :=
  dividePosAux_flatten lst.length lst n le_rfl hn

lemma nat_ceil_step (L n : Nat) (h : 1 ≤ L) :
    (L + n) / (n + 1) = ((L - (n + 1)) + n) / (n + 1) + 1 := by
  rcases le_or_lt L (n + 1) with hle | hlt
  · have h0 : L - (n + 1) = 0 := by omega
    have hL : (L + n) / (n + 1) = 1 :=
      Nat.div_eq_of_lt_le (by omega) (by omega)
    have hR : n / (n + 1) = 0 := Nat.div_eq_of_lt (by omega)
    rw [h0, Nat.zero_add, hR, hL]
  · have hsplit : L + n = ((L - (n + 1)) + n) + (n + 1) := by omega
    rw [hsplit, Nat.add_div_right _ (Nat.succ_pos n)]

lemma dividePosAux_length {α : Type} :
    ∀ (fuel : Nat) (lst : List α) (n : Nat), lst.length ≤ fuel →
      (Seller.dividePosAux fuel lst (n + 1)).length = (lst.length + n) / (n + 1) := by
  intro fuel
  induction fuel with
  | zero =>
      intro lst n hle
      have : lst = [] := List.eq_nil_of_length_eq_zero (Nat.le_zero.mp hle)
      subst this
      simp [Seller.dividePosAux, Nat.div_eq_of_lt]
  | succ fuel ih =>
      intro lst n hle
      cases lst with
      | nil => simp [Seller.dividePosAux, Nat.div_eq_of_lt]
      | cons x xs =>
          simp only [List.length_cons] at hle
          have hlen : ((x :: xs).drop (n + 1)).length ≤ fuel := by
            rw [List.length_drop, List.length_cons]
            omega
          simp only [Seller.dividePosAux, List.length_cons, ih _ n hlen,
            List.length_drop]
          exact (nat_ceil_step (xs.length + 1) n (by omega)).symm

lemma dividePosAux_eq_nil_iff {α : Type} (fuel : Nat) (lst : List α) (n : Nat)
    (hle : lst.length ≤ fuel) :
    Seller.dividePosAux fuel lst n = [] ↔ lst = [] := by
  cases fuel with
  | zero =>
      have : lst = [] := List.eq_nil_of_length_eq_zero (Nat.le_zero.mp hle)
      subst this
      simp [Seller.dividePosAux]
  | succ fuel =>
      cases lst with
      | nil => simp [Seller.dividePosAux]
      | cons x xs => simp [Seller.dividePosAux]

lemma dividePosAux_dropLast_all {α : Type} :
    ∀ (fuel : Nat) (lst : List α) (n : Nat), lst.length ≤ fuel →
      (Seller.dividePosAux fuel lst (n + 1)).dropLast.all
        (fun c => c.length == n + 1) = true := by
  intro fuel
  induction fuel with
  | zero =>
      intro lst n hle
      have : lst = [] := List.eq_nil_of_length_eq_zero (Nat.le_zero.mp hle)
      subst this
      simp [Seller.dividePosAux]
  | succ fuel ih =>
      intro lst n hle
      cases lst with
      | nil => simp [Seller.dividePosAux]
      | cons x xs =>
          simp only [List.length_cons] at hle
          have hlen : ((x :: xs).drop (n + 1)).length ≤ fuel := by
            rw [List.length_drop, List.length_cons]
            omega
          simp only [Seller.dividePosAux]
          by_cases hrest : (x :: xs).drop (n + 1) = []
          · rw [hrest]
            have hnil : Seller.dividePosAux fuel ([] : List α) (n + 1) = [] := by
              cases fuel <;> simp [Seller.dividePosAux]
            rw [hnil]
            simp
          · have hne : Seller.dividePosAux fuel ((x :: xs).drop (n + 1)) (n + 1) ≠ [] :=
              fun hnil => hrest ((dividePosAux_eq_nil_iff fuel _ (n + 1) hlen).mp hnil)
            rw [List.dropLast_cons_of_ne_nil hne]
            have hL : n + 1 < xs.length + 1 := by
              rcases Nat.lt_or_ge (n + 1) (xs.length + 1) with h | h
              · exact h
              · exact absurd (List.drop_eq_nil_of_le (by simpa using h)) hrest
            have htake : ((x :: xs).take (n + 1)).length = n + 1 := by
              simp only [List.length_take, List.length_cons]
              omega
            simp only [List.all_cons, htake, beq_self_eq_true, Bool.true_and]
            exact ih _ n hlen

lemma dividePosAux_chunk_le {α : Type} :
    ∀ (fuel : Nat) (lst : List α) (n : Nat) (c : List α),
      c ∈ Seller.dividePosAux fuel lst n → c.length ≤ n := by
  intro fuel
  induction fuel with
  | zero => intro lst n c hc; simp [Seller.dividePosAux] at hc
  | succ fuel ih =>
      intro lst n c hc
      cases lst with
      | nil => simp [Seller.dividePosAux] at hc
      | cons x xs =>
          simp only [Seller.dividePosAux, List.mem_cons] at hc
          rcases hc with hc | hc
          · subst hc
            simp only [List.length_take]
            omega
          · exact ih _ n c hc

lemma dividePos_chunk_le {α : Type} (lst : List α) (n : Nat) (c : List α)
    (hc : c ∈ Seller.dividePos lst n) : c.length ≤ n :=
  dividePosAux_chunk_le lst.length lst n c hc

/-- C6: for every list and every positive chunk size, the chunks
produced by `divide` concatenate back to the input in order, their
number is `ceil(L/N)`, and every chunk except possibly the last has
length exactly `N`. -/
theorem divide_partition_contract {α : Type} (lst : List α) (n : Int)
    (hn : 0 < n) (cs : List (List α)) (h : Seller.divide lst n = some cs) :
    cs.flatten = lst ∧
    cs.length = (lst.length + n.toNat - 1) / n.toNat ∧
    cs.dropLast.all (fun c => c.length == n.toNat) = true := by
  have hn0 : n ≠ 0 := by omega
  have hcs : cs = Seller.dividePos lst n.toNat := by
    rw [Seller.divide, if_neg hn0, if_pos hn] at h
    exact (Option.some.injEq _ _).mp h.symm
  have hpos : 0 < n.toNat := by omega
  obtain ⟨m, hm⟩ : ∃ m, n.toNat = m + 1 := ⟨n.toNat - 1, by omega⟩
  subst hcs
  refine ⟨dividePos_flatten lst n.toNat hpos, ?_, ?_⟩
  · rw [hm]
    have := dividePosAux_length (α := α) lst.length lst m le_rfl
    rw [Seller.dividePos, this]
    have harg : lst.length + (m + 1) - 1 = lst.length + m := by omega
    rw [harg]
  · rw [hm]
    exact dividePosAux_dropLast_all lst.length lst m le_rfl

/-- Witness for C6 at the concrete input `[1,2,3]` with chunk size 2. -/
theorem divide_partition_contract_witness :
    ([[1, 2], [3]] : List (List Nat)).flatten = [1, 2, 3] ∧
    ([[1, 2], [3]] : List (List Nat)).length =
      (([1, 2, 3] : List Nat).length + (2 : Int).toNat - 1) / (2 : Int).toNat ∧
    ([[1, 2], [3]] : List (List Nat)).dropLast.all
      (fun c => c.length == (2 : Int).toNat) = true :=
  divide_partition_contract [1, 2, 3] 2 (by decide) [[1, 2], [3]] (by decide)

/-- C10: `divide` with chunk size 0 reaches the error branch
(`range(0, len, 0)` raises `ValueError`) for every list, and with any
negative chunk size it yields no chunks at all, so the whole input is
dropped; the positive-size precondition of C6 is therefore necessary. -/
theorem divide_nonpositive_size {α : Type} (lst : List α) (n : Int)
    (hn : n < 0) :
    Seller.divide lst 0 = none ∧ Seller.divide lst n = some [] := by
  constructor
  · simp [Seller.divide]
  · have h0 : n ≠ 0 := by omega
    have h1 : ¬(0 < n) := by omega
    rw [Seller.divide, if_neg h0, if_neg h1]

/-- Witness for C10 at the nonempty list `[1]` and chunk size `-1`. -/
theorem divide_nonpositive_size_witness :
    Seller.divide ([1] : List Nat) 0 = none ∧
    Seller.divide ([1] : List Nat) (-1) = some [] :=
  divide_nonpositive_size [1] (-1) (by decide)

/-! Section: Properties of the price parser (`seller.price_conversion`) -/

lemma py_split_ne_nil (sep : Char) (cs : List Char) :
    Seller.py_split sep cs ≠ [] := by
  cases cs with
  | nil => simp [Seller.py_split]
  | cons c rest =>
      simp only [Seller.py_split]
      by_cases h : c = sep
      · simp [h]
      · rw [if_neg h]
        cases hps : Seller.py_split sep rest with
        | nil => simp
        | cons p ps => simp

lemma py_split_headD (sep : Char) (cs : List Char) :
    (Seller.py_split sep cs).headD [] = cs.takeWhile (fun c => !(c == sep)) := by
  induction cs with
  | nil => simp [Seller.py_split, List.takeWhile]
  | cons c rest ih =>
      simp only [Seller.py_split, List.takeWhile]
      by_cases h : c = sep
      · simp [h]
      · rw [if_neg h]
        have hbeq : (c == sep) = false := beq_eq_false_iff_ne.mpr h
        rw [hbeq]
        cases hps : Seller.py_split sep rest with
        | nil => exact absurd hps (py_split_ne_nil sep rest)
        | cons p ps =>
            rw [hps] at ih
            simp only [List.headD_cons] at ih ⊢
            simp [ih]

/-- C7: for every input string, `price_conversion` returns exactly the
digit-only portion of the input before the first "." character (the
whole input when no "." occurs), and in particular maps
"5'990.00 руб." to "5990", "12.50" to "12" and "999 руб" to "999". -/
theorem price_conversion_contract :
    (∀ s : String, Seller.price_conversion s = price_conversion_spec s) ∧
    Seller.price_conversion ("5\x27990.00 руб.") = "5990" ∧
    Seller.price_conversion ("12.50") = "12" ∧
    Seller.price_conversion ("999 руб") = "999" := by
  refine ⟨fun s => ?_, by decide, by decide, by decide⟩
  unfold Seller.price_conversion price_conversion_spec
  rw [py_split_headD]

/-! Section: Reconciler identifier-set preservation -/

lemma seller_create_stocks_loop_perm :
    ∀ (rows : List Seller.SupplierRow) (ids : List String)
      (stocks : List Seller.StockRecord) (ids2 : List String),
      Seller.create_stocks_loop rows ids = some (stocks, ids2) →
      (stocks.map Seller.StockRecord.offer_id ++ ids2).Perm ids := by
  intro rows
  induction rows with
  | nil =>
      intro ids stocks ids2 h
      simp only [Seller.create_stocks_loop, Option.some.injEq, Prod.mk.injEq] at h
      rw [← h.1, ← h.2]
      simp
  | cons w rest ih =>
      intro ids stocks ids2 h
      simp only [Seller.create_stocks_loop] at h
      by_cases hmem : w.code ∈ ids
      · rw [if_pos hmem] at h
        cases hcl : (if w.quantity = ">10" then some (100 : Int)
                     else if w.quantity = "1" then some (0 : Int)
                     else Seller.pyInt w.quantity) with
        | none => rw [hcl] at h; cases h
        | some stock =>
            rw [hcl] at h
            cases hrec : Seller.create_stocks_loop rest (ids.erase w.code) with
            | none => rw [hrec] at h; cases h
            | some pr =>
                obtain ⟨stocks1, ids1⟩ := pr
                rw [hrec] at h
                simp only [Option.some.injEq, Prod.mk.injEq] at h
                rw [← h.1, ← h.2]
                have hperm := ih _ _ _ hrec
                simp only [List.map_cons, List.cons_append]
                exact (hperm.cons w.code).trans (List.perm_cons_erase hmem).symm
      · rw [if_neg hmem] at h
        exact ih _ _ _ h

lemma seller_create_stocks_perm (rows : List Seller.SupplierRow)
    (ids : List String) (stocks : List Seller.StockRecord) (ids2 : List String)
    (h : Seller.create_stocks rows ids = some (stocks, ids2)) :
    (stocks.map Seller.StockRecord.offer_id).Perm ids := by
  simp only [Seller.create_stocks] at h
  cases hloop : Seller.create_stocks_loop rows ids with
  | none => rw [hloop] at h; cases h
  | some pr =>
      obtain ⟨stocks1, ids1⟩ := pr
      rw [hloop] at h
      simp only [Option.some.injEq, Prod.mk.injEq] at h
      rw [← h.1]
      have hmm :
          ((stocks1 ++ ids1.map fun offer_id => (⟨offer_id, 0⟩ : Seller.StockRecord)).map
            Seller.StockRecord.offer_id) =
          stocks1.map Seller.StockRecord.offer_id ++ ids1 := by
        rw [List.map_append, List.map_map]
        have hcomp : (Seller.StockRecord.offer_id ∘ fun offer_id =>
            (⟨offer_id, 0⟩ : Seller.StockRecord)) = id := rfl
        rw [hcomp, List.map_id]
      rw [hmm]
      exact seller_create_stocks_loop_perm rows ids stocks1 ids1 hloop

lemma market_create_stocks_loop_perm (wh date : String) :
    ∀ (rows : List Seller.SupplierRow) (ids : List String)
      (stocks : List Market.StockRecord) (ids2 : List String),
      Market.create_stocks_loop wh date rows ids = some (stocks, ids2) →
      (stocks.map Market.StockRecord.sku ++ ids2).Perm ids := by
  intro rows
  induction rows with
  | nil =>
      intro ids stocks ids2 h
      simp only [Market.create_stocks_loop, Option.some.injEq, Prod.mk.injEq] at h
      rw [← h.1, ← h.2]
      simp
  | cons w rest ih =>
      intro ids stocks ids2 h
      simp only [Market.create_stocks_loop] at h
      by_cases hmem : w.code ∈ ids
      · rw [if_pos hmem] at h
        cases hcl : (if w.quantity = ">10" then some (100 : Int)
                     else if w.quantity = "1" then some (0 : Int)
                     else Seller.pyInt w.quantity) with
        | none => rw [hcl] at h; cases h
        | some stock =>
            rw [hcl] at h
            cases hrec : Market.create_stocks_loop wh date rest (ids.erase w.code) with
            | none => rw [hrec] at h; cases h
            | some pr =>
                obtain ⟨stocks1, ids1⟩ := pr
                rw [hrec] at h
                simp only [Option.some.injEq, Prod.mk.injEq] at h
                rw [← h.1, ← h.2]
                have hperm := ih _ _ _ hrec
                simp only [List.map_cons, List.cons_append]
                exact (hperm.cons w.code).trans (List.perm_cons_erase hmem).symm
      · rw [if_neg hmem] at h
        exact ih _ _ _ h

lemma market_create_stocks_perm (rows : List Seller.SupplierRow)
    (ids : List String) (wh date : String)
    (stocks : List Market.StockRecord) (ids2 : List String)
    (h : Market.create_stocks rows ids wh date = some (stocks, ids2)) :
    (stocks.map Market.StockRecord.sku).Perm ids := by
  simp only [Market.create_stocks] at h
  cases hloop : Market.create_stocks_loop wh date rows ids with
  | none => rw [hloop] at h; cases h
  | some pr =>
      obtain ⟨stocks1, ids1⟩ := pr
      rw [hloop] at h
      simp only [Option.some.injEq, Prod.mk.injEq] at h
      rw [← h.1]
      have hmm :
          ((stocks1 ++ ids1.map fun offer_id =>
              (⟨offer_id, wh, [⟨0, "FIT", date⟩]⟩ : Market.StockRecord)).map
            Market.StockRecord.sku) =
          stocks1.map Market.StockRecord.sku ++ ids1 := by
        rw [List.map_append, List.map_map]
        have hcomp : (Market.StockRecord.sku ∘ fun offer_id =>
            (⟨offer_id, wh, [⟨0, "FIT", date⟩]⟩ : Market.StockRecord)) = id := rfl
        rw [hcomp, List.map_id]
      rw [hmm]
      exact market_create_stocks_loop_perm wh date rows ids stocks1 ids1 hloop

/-- C1: for every supplier-row list and every duplicate-free
offer-identifier list, the offer identifiers of the stock records
emitted by `create_stocks` (both marketplace variants) are exactly the
original identifiers: same set, and no identifier emitted twice. -/
theorem create_stocks_id_set_preserved (rows : List Seller.SupplierRow)
    (ids : List String) (stocks : List Seller.StockRecord) (ids2 : List String)
    (mstocks : List Market.StockRecord) (mids2 : List String) (wh date : String)
    (hnd : ids.Nodup)
    (hs : Seller.create_stocks rows ids = some (stocks, ids2))
    (hm : Market.create_stocks rows ids wh date = some (mstocks, mids2)) :
    ((stocks.map Seller.StockRecord.offer_id).toFinset = ids.toFinset ∧
      (stocks.map Seller.StockRecord.offer_id).Nodup) ∧
    ((mstocks.map Market.StockRecord.sku).toFinset = ids.toFinset ∧
      (mstocks.map Market.StockRecord.sku).Nodup) := by
  have hps := seller_create_stocks_perm rows ids stocks ids2 hs
  have hpm := market_create_stocks_perm rows ids wh date mstocks mids2 hm
  exact ⟨⟨List.toFinset_eq_of_perm _ _ hps, hps.nodup_iff.mpr hnd⟩,
         ⟨List.toFinset_eq_of_perm _ _ hpm, hpm.nodup_iff.mpr hnd⟩⟩

/-- Witness for C1: a matched row "A" and an unmatched identifier "B". -/
theorem create_stocks_id_set_preserved_witness :
    ((([⟨"A", 100⟩, ⟨"B", 0⟩] : List Seller.StockRecord).map
        Seller.StockRecord.offer_id).toFinset =
        (["A", "B"] : List String).toFinset ∧
      (([⟨"A", 100⟩, ⟨"B", 0⟩] : List Seller.StockRecord).map
        Seller.StockRecord.offer_id).Nodup) ∧
    ((([⟨"A", "w", [⟨100, "FIT", "d"⟩]⟩, ⟨"B", "w", [⟨0, "FIT", "d"⟩]⟩] :
          List Market.StockRecord).map Market.StockRecord.sku).toFinset =
        (["A", "B"] : List String).toFinset ∧
      (([⟨"A", "w", [⟨100, "FIT", "d"⟩]⟩, ⟨"B", "w", [⟨0, "FIT", "d"⟩]⟩] :
          List Market.StockRecord).map Market.StockRecord.sku).Nodup) :=
  create_stocks_id_set_preserved [⟨"A", ">10", "100.00 x"⟩] ["A", "B"]
    [⟨"A", 100⟩, ⟨"B", 0⟩] ["B"]
    [⟨"A", "w", [⟨100, "FIT", "d"⟩]⟩, ⟨"B", "w", [⟨0, "FIT", "d"⟩]⟩] ["B"]
    ("w") ("d") (by decide) (by decide) (by decide)

/-! Section: Free-form quantity strings -/

/-- Counterexample to C4: a matched supplier row whose Quantity is the
free-form string "мало" (neither ">10" nor an integer) makes
`create_stocks` raise a `ValueError` from `int(...)` — no stock record
with count 0 is emitted, in either marketplace variant. -/
theorem quantity_freeform_cx :
    Seller.create_stocks [⟨"A", "мало", "100.00 руб."⟩] ["A"] = none ∧
    Market.create_stocks [⟨"A", "мало", "100.00 руб."⟩] ["A"] ("w") ("d") = none := by
  decide

/-- C4 (amended): for every supplier row whose code is matched and whose
Quantity string is neither the token ">10" nor parseable by `int(...)`,
both `create_stocks` variants fail with a `ValueError` (the claim's
"resolves to 0 rather than failing" does not hold; only the literal
"1", an integer string, maps to 0). -/
theorem quantity_freeform_raises (w : Seller.SupplierRow)
    (rows : List Seller.SupplierRow) (ids : List String) (wh date : String)
    (hmem : w.code ∈ ids) (hq : w.quantity ≠ ">10")
    (hint : Seller.pyInt w.quantity = none) :
    Seller.create_stocks (w :: rows) ids = none ∧
    Market.create_stocks (w :: rows) ids wh date = none := by
  have hq1 : w.quantity ≠ "1" := by
    intro h1
    rw [h1] at hint
    exact absurd hint (by decide)
  have hcl : (if w.quantity = ">10" then some (100 : Int)
              else if w.quantity = "1" then some (0 : Int)
              else Seller.pyInt w.quantity) = none := by
    rw [if_neg hq, if_neg hq1]
    exact hint
  constructor
  · simp only [Seller.create_stocks, Seller.create_stocks_loop, if_pos hmem, hcl]
  · simp only [Market.create_stocks, Market.create_stocks_loop, if_pos hmem, hcl]

/-- Witness for C4 (amended) at the row `("A", "abc", "1")` and the
offer-identifier list `["A"]`. -/
theorem quantity_freeform_raises_witness :
    Seller.create_stocks [⟨"A", "abc", "1"⟩] ["A"] = none ∧
    Market.create_stocks [⟨"A", "abc", "1"⟩] ["A"] ("wh") ("dt") = none :=
  quantity_freeform_raises ⟨"A", "abc", "1"⟩ [] ["A"] ("wh") ("dt")
    (by decide) (by decide) (by decide)

/-! Section: End-to-end scenario of the standalone Ozon run -/

/-- C2 (code evaluation): on offer identifiers "A","B","C" and the two
scenario supplier rows, `seller.main` builds exactly one stock batch
`[A→100, B→0, C→0]` (as the claim states) but builds *no* price records
at all: `create_stocks` has already emptied the shared `offer_ids` list
of every matched code, so `create_prices`, called on the leftover list
`["C"]`, matches nothing — contradicting the claimed price records
A→"100" and B→"50". -/
theorem seller_main_scenario :
    Seller.main_records ["A", "B", "C"]
        [⟨"A", ">10", "100.00 x"⟩, ⟨"B", "1", "50.00 x"⟩] =
      some ([[⟨"A", 100⟩, ⟨"B", 0⟩, ⟨"C", 0⟩]], []) := by
  decide

/-! Section: Marketplace B batch limits -/

/-- C9: every stock-update submission of the standalone Ozon entry point
and of `upload_stocks` carries at most 100 records; every price-update
submission carries at most 900 records in `seller.main` and at most
1000 records in the `upload_prices` path. -/
theorem seller_batch_limits (ids : List String)
    (rows : List Seller.SupplierRow)
    (sb : List (List Seller.StockRecord)) (pb : List (List Seller.PriceRecord))
    (bs : List (List Seller.StockRecord))
    (hmain : Seller.main_records ids rows = some (sb, pb))
    (hup : Seller.upload_stocks_batches ids rows = some bs) :
    (∀ b ∈ sb, b.length ≤ 100) ∧ (∀ b ∈ pb, b.length ≤ 900) ∧
    (∀ b ∈ Seller.upload_prices_batches ids rows, b.length ≤ 1000) ∧
    (∀ b ∈ bs, b.length ≤ 100) := by
  refine ⟨?_, ?_, ?_, ?_⟩
  · intro b hb
    simp only [Seller.main_records] at hmain
    cases hcs : Seller.create_stocks rows ids with
    | none => rw [hcs] at hmain; cases hmain
    | some pr =>
        obtain ⟨stocks, ids1⟩ := pr
        rw [hcs] at hmain
        simp only [Option.some.injEq, Prod.mk.injEq] at hmain
        rw [← hmain.1] at hb
        exact dividePos_chunk_le stocks 100 b hb
  · intro b hb
    simp only [Seller.main_records] at hmain
    cases hcs : Seller.create_stocks rows ids with
    | none => rw [hcs] at hmain; cases hmain
    | some pr =>
        obtain ⟨stocks, ids1⟩ := pr
        rw [hcs] at hmain
        simp only [Option.some.injEq, Prod.mk.injEq] at hmain
        rw [← hmain.2] at hb
        exact dividePos_chunk_le _ 900 b hb
  · intro b hb
    exact dividePos_chunk_le _ 1000 b hb
  · intro b hb
    simp only [Seller.upload_stocks_batches] at hup
    cases hcs : Seller.create_stocks rows ids with
    | none => rw [hcs] at hup; cases hup
    | some pr =>
        obtain ⟨stocks, ids1⟩ := pr
        rw [hcs] at hup
        simp only [Option.some.injEq] at hup
        rw [← hup] at hb
        exact dividePos_chunk_le stocks 100 b hb

/-- Witness for C9 at one matched row and the identifier list `["A"]`. -/
theorem seller_batch_limits_witness :
    (∀ b ∈ [[(⟨"A", 100⟩ : Seller.StockRecord)]], b.length ≤ 100) ∧
    (∀ b ∈ ([] : List (List Seller.PriceRecord)), b.length ≤ 900) ∧
    (∀ b ∈ Seller.upload_prices_batches ["A"] [⟨"A", ">10", "100.00 x"⟩],
      b.length ≤ 1000) ∧
    (∀ b ∈ [[(⟨"A", 100⟩ : Seller.StockRecord)]], b.length ≤ 100) :=
  seller_batch_limits ["A"] [⟨"A", ">10", "100.00 x"⟩]
    [[⟨"A", 100⟩]] [] [[⟨"A", 100⟩]] (by decide) (by decide)

/-! Section: Price submission in the Yandex Market orchestrator -/

/-- C3 (code evaluation): every API submission `market.main` performs is
a stock-update batch — no price-update request is ever sent.  The
`upload_prices(...)` calls after each campaign's stock loop invoke an
`async` function without `await`, so CPython merely builds a coroutine
object and discards it; the price-building and price-submission code in
its body never runs. -/
theorem market_main_no_price_submission (campaign_fbs campaign_dbs : String)
    (fbs_ids dbs_ids : List String) (rows : List Seller.SupplierRow)
    (wh_fbs wh_dbs date : String) :
    ((Market.main_events campaign_fbs campaign_dbs fbs_ids dbs_ids rows
        wh_fbs wh_dbs date).1.all Market.Event.isStockBatch) = true := by
  simp only [Market.main_events]
  cases hF : Market.create_stocks rows fbs_ids wh_fbs date with
  | none => simp
  | some prF =>
      obtain ⟨stocksF, idsF⟩ := prF
      cases hD : Market.create_stocks rows dbs_ids wh_dbs date with
      | none =>
          simp only [List.all_eq_true, List.mem_map]
          rintro e ⟨b, _, rfl⟩
          rfl
      | some prD =>
          obtain ⟨stocksD, idsD⟩ := prD
          simp only [List.all_eq_true, List.mem_append, List.mem_map]
          rintro e (⟨b, _, rfl⟩ | ⟨b, _, rfl⟩) <;> rfl

/-! Section: Top-level error containment -/

lemma outcomeOf_not_uncaught (x : Except PyExc Unit) :
    (outcomeOf x).isUncaught = false := by
  cases x with
  | ok _ => rfl
  | error e => cases e <;> rfl

/-- Counterexample to C5: in `market.main` the feed download happens
before the `try` block, so a connection error raised while downloading
the feed reaches no handler and the run terminates with an uncaught
exception — the claim's "every exception ... at any step (including
feed download) ... is caught" fails for the Marketplace A entry point. -/
theorem error_containment_cx :
    Market.main_outcome (Except.error PyExc.connectionError) (Except.ok [])
      (Except.ok []) (fun _ => Except.ok ()) ("wf") ("wd") ("d") =
      RunOutcome.uncaught PyExc.connectionError := rfl

/-- C5 (amended): in `seller.main` every exception raised anywhere in
the synchronization sequence is caught by exactly one of the three
top-level handlers, and the same holds in `market.main` for every step
*after* the feed download; a feed-download failure in `market.main`,
however, occurs before the `try` block and escapes uncaught. -/
theorem error_containment (offersS : Except PyExc (List String))
    (feedS : Except PyExc (List Seller.SupplierRow))
    (sS : List Seller.StockRecord → Except PyExc Unit)
    (sP : List Seller.PriceRecord → Except PyExc Unit)
    (rows : List Seller.SupplierRow)
    (offersF offersD : Except PyExc (List String))
    (sM : List Market.StockRecord → Except PyExc Unit)
    (wh_fbs wh_dbs date : String) (e : PyExc) :
    (Seller.main_outcome offersS feedS sS sP).isUncaught = false ∧
    (Market.main_outcome (Except.ok rows) offersF offersD sM
        wh_fbs wh_dbs date).isUncaught = false ∧
    Market.main_outcome (Except.error e) offersF offersD sM
        wh_fbs wh_dbs date = RunOutcome.uncaught e := by
  refine ⟨outcomeOf_not_uncaught _, ?_, rfl⟩
  simp only [Market.main_outcome]
  exact outcomeOf_not_uncaught _

/-! Section: Offer resolver accumulation and de-duplication -/

/-- Counterexample to C8: a listing whose single page reports two items
with the same offer identifier makes `seller.get_offer_ids` return that
identifier twice — the function performs no de-duplication, so the
result does not contain every listed identifier exactly once. -/
theorem get_offer_ids_cx :
    Seller.get_offer_ids [⟨[⟨"A"⟩, ⟨"A"⟩], 2, ""⟩] = some ["A", "A"] ∧
    (["A", "A"] : List String).count ("A") = 2 := by
  decide

lemma seller_get_offer_ids_loop_take (pages : List Seller.OzonPage) :
    ∀ (acc res : List Seller.OzonProduct),
      Seller.get_offer_ids_loop pages acc = some res →
      ∃ k, k ≤ pages.length ∧
        res = acc ++ (pages.take k).flatMap Seller.OzonPage.items := by
  induction pages with
  | nil => intro acc res h; cases h
  | cons p rest ih =>
      intro acc res h
      simp only [Seller.get_offer_ids_loop] at h
      by_cases hc : p.total = (acc ++ p.items).length
      · rw [if_pos hc] at h
        refine ⟨1, by simp, ?_⟩
        simp only [List.take_succ_cons, List.take_zero, List.flatMap_cons,
          List.flatMap_nil, List.append_nil]
        simp only [Option.some.injEq] at h
        exact h.symm
      · rw [if_neg hc] at h
        obtain ⟨k, hk, hres⟩ := ih _ _ h
        refine ⟨k + 1, by simpa using Nat.succ_le_succ hk, ?_⟩
        simp only [List.take_succ_cons, List.flatMap_cons, hres,
          List.append_assoc]

lemma market_get_offer_ids_loop_take (pages : List Market.MarketPage) :
    ∀ (acc res : List Market.MarketEntry),
      Market.get_offer_ids_loop pages acc = some res →
      ∃ k, k ≤ pages.length ∧
        res = acc ++ (pages.take k).flatMap Market.MarketPage.offerMappingEntries := by
  induction pages with
  | nil => intro acc res h; cases h
  | cons p rest ih =>
      intro acc res h
      simp only [Market.get_offer_ids_loop] at h
      by_cases hc : p.nextPageToken = ""
      · rw [if_pos hc] at h
        refine ⟨1, by simp, ?_⟩
        simp only [List.take_succ_cons, List.take_zero, List.flatMap_cons,
          List.flatMap_nil, List.append_nil]
        simp only [Option.some.injEq] at h
        exact h.symm
      · rw [if_neg hc] at h
        obtain ⟨k, hk, hres⟩ := ih _ _ h
        refine ⟨k + 1, by simpa using Nat.succ_le_succ hk, ?_⟩
        simp only [List.take_succ_cons, List.flatMap_cons, hres,
          List.append_assoc]

lemma nodup_of_take_flatMap_map {α β γ : Type} (pages : List α)
    (items : α → List β) (f : β → γ) (k : Nat)
    (hnd : ((pages.flatMap items).map f).Nodup) :
    (((pages.take k).flatMap items).map f).Nodup := by
  have hsplit : pages = pages.take k ++ pages.drop k :=
    (List.take_append_drop k pages).symm
  rw [hsplit, List.flatMap_append, List.map_append] at hnd
  exact hnd.of_append_left

/-- C8 (amended): both `get_offer_ids` variants accumulate listing items
page by page, in order, until the platform's cursor signals exhaustion,
and return one offer identifier per accumulated item with *no*
de-duplication; consequently, whenever the listed identifiers are
pairwise distinct, the returned collection contains each of them exactly
once. -/
theorem get_offer_ids_accumulation (pages : List Seller.OzonPage)
    (mpages : List Market.MarketPage) (ids mids : List String)
    (hs : Seller.get_offer_ids pages = some ids)
    (hm : Market.get_offer_ids mpages = some mids)
    (hnds : ((pages.flatMap Seller.OzonPage.items).map
      Seller.OzonProduct.offer_id).Nodup)
    (hndm : ((mpages.flatMap Market.MarketPage.offerMappingEntries).map
      Market.MarketEntry.shopSku).Nodup) :
    ((∃ k, k ≤ pages.length ∧
        ids = ((pages.take k).flatMap Seller.OzonPage.items).map
          Seller.OzonProduct.offer_id) ∧
      ∀ x ∈ ids, List.count x ids = 1) ∧
    ((∃ k, k ≤ mpages.length ∧
        mids = ((mpages.take k).flatMap Market.MarketPage.offerMappingEntries).map
          Market.MarketEntry.shopSku) ∧
      ∀ x ∈ mids, List.count x mids = 1) := by
  simp only [Seller.get_offer_ids] at hs
  simp only [Market.get_offer_ids] at hm
  cases hls : Seller.get_offer_ids_loop pages [] with
  | none => rw [hls] at hs; cases hs
  | some prods =>
      cases hlm : Market.get_offer_ids_loop mpages [] with
      | none => rw [hlm] at hm; cases hm
      | some entries =>
          rw [hls] at hs
          rw [hlm] at hm
          simp only [Option.map_some', Option.some.injEq] at hs hm
          obtain ⟨k, hk, hkres⟩ := seller_get_offer_ids_loop_take pages [] prods hls
          obtain ⟨j, hj, hjres⟩ := market_get_offer_ids_loop_take mpages [] entries hlm
          rw [List.nil_append] at hkres hjres
          have hids : ids = ((pages.take k).flatMap Seller.OzonPage.items).map
              Seller.OzonProduct.offer_id := by rw [← hs, hkres]
          have hmids : mids = ((mpages.take j).flatMap
              Market.MarketPage.offerMappingEntries).map Market.MarketEntry.shopSku := by
            rw [← hm, hjres]
          have hnids : ids.Nodup := by
            rw [hids]
            exact nodup_of_take_flatMap_map pages Seller.OzonPage.items
              Seller.OzonProduct.offer_id k hnds
          have hnmids : mids.Nodup := by
            rw [hmids]
            exact nodup_of_take_flatMap_map mpages Market.MarketPage.offerMappingEntries
              Market.MarketEntry.shopSku j hndm
          exact ⟨⟨⟨k, hk, hids⟩, fun x hx => List.count_eq_one_of_mem hnids hx⟩,
                 ⟨⟨j, hj, hmids⟩, fun x hx => List.count_eq_one_of_mem hnmids hx⟩⟩

/-- Witness for C8 (amended): a one-page Ozon listing of "A" (total 1)
and a one-page Yandex listing of "B" (empty next-page token). -/
theorem get_offer_ids_accumulation_witness :
    ((∃ k, k ≤ ([⟨[⟨"A"⟩], 1, ""⟩] : List Seller.OzonPage).length ∧
        ["A"] = ((([⟨[⟨"A"⟩], 1, ""⟩] : List Seller.OzonPage).take k).flatMap
          Seller.OzonPage.items).map Seller.OzonProduct.offer_id) ∧
      ∀ x ∈ (["A"] : List String), List.count x ["A"] = 1) ∧
    ((∃ k, k ≤ ([⟨[⟨"B"⟩], ""⟩] : List Market.MarketPage).length ∧
        ["B"] = ((([⟨[⟨"B"⟩], ""⟩] : List Market.MarketPage).take k).flatMap
          Market.MarketPage.offerMappingEntries).map Market.MarketEntry.shopSku) ∧
      ∀ x ∈ (["B"] : List String), List.count x ["B"] = 1) :=
  get_offer_ids_accumulation [⟨[⟨"A"⟩], 1, ""⟩] [⟨[⟨"B"⟩], ""⟩] ["A"] ["B"]
    (by decide) (by decide) (by decide) (by decide)
